import Mathlib

/-!
Verification of the groceree-api recipe-sharing backend.

The handlers in `src/handlers/auth.ts`, `src/handlers/recipes.ts` and the
middleware in `src/middleware/errorHandler.ts` are embedded as pure Lean
functions over an explicit database state.  Database tables (schema in
`src/db/schema.ts` and `migrations/0000_initial.sql`) are modelled as lists
of row records.  Columns that no modelled handler reads or writes
(`createdAt` timestamps, the DB-generated random ids of child rows) are
omitted; DB-generated parent ids appear as explicit `freshId` arguments.
SQL `DELETE ... WHERE` is list filtering, `INSERT` is list append, and the
`ON DELETE CASCADE` declarations of the schema are part of the model of
deleting a recipe row.  SQLite's `LIKE` operator (ASCII-case-insensitive,
with `%`/`_` wildcards) is modelled by `likeMatch` below.
-/

/-- Row of the `users` table (schema.ts lines 11-22). -/
structure UserRow where
  id : String
  firstName : String
  lastName : String
  username : String
  password : String
  imageUrl : String
  bio : String
deriving DecidableEq, Repr

/-- Row of the `recipes` table (schema.ts lines 25-37). -/
structure RecipeRow where
  id : String
  userId : String
  name : String
  imageUrl : String
  duration : Int
  servings : Int
deriving DecidableEq, Repr

/-- Row of the `ingredients` table (schema.ts lines 41-49); the random
primary key is DB-generated and never read by a handler, so it is omitted.
The `amount` REAL column is carried opaquely (no handler computes on it). -/
structure IngredientRow where
  recipeId : String
  name : String
  amount : ℚ
  unit : String
deriving DecidableEq, Repr

/-- Row of the `instructions` table (schema.ts lines 52-59). -/
structure InstructionRow where
  recipeId : String
  step : Int
  instruction : String
deriving DecidableEq, Repr

/-- Row of the `user_favorites` join table (schema.ts lines 62-71). -/
structure FavRow where
  userId : String
  recipeId : String
deriving DecidableEq, Repr

/-- The relational database state: one list per table. -/
structure DB where
  users : List UserRow
  recipes : List RecipeRow
  ingredients : List IngredientRow
  instructions : List InstructionRow
  userFavorites : List FavRow
deriving DecidableEq, Repr

/-- The identity a token encodes (`AuthUser` in models/types.ts). -/
structure AuthUser where
  id : String
  username : String
deriving DecidableEq, Repr

/-- Result of a handler: a successful JSON value, or a thrown `ApiError`
carrying a status code and message (middleware/errorHandler.ts lines 2-11). -/
inductive Outcome (α : Type) where
  | ok (value : α)
  | apiError (status : Nat) (message : String)
deriving DecidableEq, Repr

/-- generateToken (auth.ts lines 122-125) is `btoa(JSON.stringify(user))`,
an injective platform encoding of the `AuthUser` payload; the token is
modelled by its payload. -/
def generateToken (user : AuthUser) : AuthUser := user

/-- Character-level model of `String.trim`: drop whitespace from both ends.
Implemented over the character list so the kernel can evaluate it. -/
def trimChars (l : List Char) : List Char :=
  ((l.dropWhile Char.isWhitespace).reverse.dropWhile Char.isWhitespace).reverse

/-- normalizeUsername (auth.ts lines 13-15): `username.toLowerCase().trim()`.
JS `toLowerCase` is modelled by `Char.toLower` per character (exact on the
ASCII usernames the API deals in). -/
def normalizeUsername (username : String) : String :=
  String.mk (trimChars (username.data.map Char.toLower))

/-- Boolean test that `s` is a leading segment of `t` (character lists). -/
def leadsWith : List Char → List Char → Bool
  | [], _ => true
  | _ :: _, [] => false
  | a :: s, b :: t => (a == b) && leadsWith s t

/-- Character-level model of splitting a string at a separator character,
as `authHeader.split(' ')` does in auth.ts line 136. -/
def splitOnChar (sep : Char) : List Char → List (List Char)
  | [] => [[]]
  | c :: cs =>
      match splitOnChar sep cs with
      | [] => if c == sep then [[], []] else [[c]]
      | r :: rs => if c == sep then [] :: r :: rs else (c :: r) :: rs

/-- Request body of POST /api/auth/register (models/types.ts). -/
structure RegisterUserRequest where
  firstName : String
  lastName : String
  username : String
  password : String
deriving DecidableEq, Repr

/-- Request body of POST /api/auth/login (models/types.ts). -/
structure LoginRequest where
  username : String
  password : String
deriving DecidableEq, Repr

/-- POST /api/auth/register (auth.ts lines 17-57).  Looks up the normalized
username; on a hit throws ApiError 400, otherwise inserts the new user row
(its DB-generated id passed as `freshId`) and returns a token. -/
def register (db : DB) (freshId : String) (body : RegisterUserRequest) :
    Outcome AuthUser × DB :=
  let normalizedUsername := normalizeUsername body.username
  match db.users.find? (fun u => u.username == normalizedUsername) with
  | some _ => (Outcome.apiError 400 "Username already exists", db)
  | none =>
      let user : UserRow :=
        { id := freshId
          firstName := body.firstName
          lastName := body.lastName
          username := normalizedUsername
          password := body.password
          imageUrl := ""
          bio := "Hi, I'm new here!" }
      (Outcome.ok (generateToken ⟨user.id, user.username⟩),
        { db with users := db.users ++ [user] })

/-- Response of GET /api/auth/check-username/:username (auth.ts lines 60-87). -/
structure CheckUsernameResponse where
  status : Nat
  available : Bool
  username : String
  message : String
deriving DecidableEq, Repr

/-- GET /api/auth/check-username/:username (auth.ts lines 60-87). -/
def checkUsername (db : DB) (raw : String) : CheckUsernameResponse :=
  let username := normalizeUsername raw
  match db.users.find? (fun u => u.username == username) with
  | some _ => ⟨409, false, username, "Username is already taken"⟩
  | none => ⟨200, true, username, "Username is available"⟩

/-- POST /api/auth/login (auth.ts lines 89-119): find the user by normalized
username, compare the stored password for string equality, return a token on
success and ApiError 401 otherwise.  Reads only; the state is untouched. -/
def login (db : DB) (body : LoginRequest) : Outcome AuthUser × DB :=
  let normalizedUsername := normalizeUsername body.username
  match db.users.find? (fun u => u.username == normalizedUsername) with
  | none => (Outcome.apiError 401 "Invalid credentials", db)
  | some user =>
      if user.password == body.password then
        (Outcome.ok (generateToken ⟨user.id, user.username⟩), db)
      else
        (Outcome.apiError 401 "Invalid credentials", db)

/-- authMiddleware (auth.ts lines 128-145), installed on every route of the
recipe router (recipes.ts line 19) and the user router.  `decode` models the
platform decoding `JSON.parse(atob(token))`, returning `none` when it throws.
`next` is the guarded route handler, which may read and change the state. -/
def authMiddleware {α : Type} (decode : String → Option AuthUser)
    (authHeader : Option String)
    (next : AuthUser → DB → Outcome α × DB) (db : DB) : Outcome α × DB :=
  match authHeader with
  | none => (Outcome.apiError 401 "Unauthorized", db)
  | some h =>
      if leadsWith "Bearer ".data h.data then
        match decode (String.mk ((splitOnChar ' ' h.data).getD 1 [])) with
        | some decoded => next decoded db
        | none => (Outcome.apiError 401 "Invalid token", db)
      else (Outcome.apiError 401 "Unauthorized", db)

/-- Example database used to instantiate the theorems on concrete inputs. -/
def exDB : DB :=
  { users := [⟨"u1", "Alice", "Smith", "alice", "pw1", "", "Hi"⟩,
              ⟨"u2", "Bob", "Jones", "bob", "pw2", "", "Yo"⟩]
    recipes := [⟨"r1", "u1", "Apple Pie", "", 45, 4⟩,
                ⟨"r2", "u2", "Soup", "", 20, 2⟩]
    ingredients := [⟨"r1", "apples", 3, "pcs"⟩, ⟨"r2", "water", 1, "l"⟩]
    instructions := [⟨"r1", 1, "Peel the apples"⟩, ⟨"r2", 1, "Boil"⟩]
    userFavorites := [⟨"u2", "r1"⟩] }

/-- C4: a register request whose username normalizes to the stored username
of an existing user fails with ApiError 400 "Username already exists" and
leaves the database unchanged (auth.ts lines 24-32). -/
theorem register_duplicate_rejected (db : DB) (freshId : String)
    (body : RegisterUserRequest)
    (hdup : ∃ u ∈ db.users, u.username = normalizeUsername body.username) :
    register db freshId body =
      (Outcome.apiError 400 "Username already exists", db) := by
  obtain ⟨u, hu, hname⟩ := hdup
  have hfind : (db.users.find?
      (fun v => v.username == normalizeUsername body.username)).isSome := by
    exact List.find?_isSome.mpr ⟨u, hu, by simp [hname]⟩
  unfold register
  obtain ⟨v, hv⟩ := Option.isSome_iff_exists.mp hfind
  simp [hv]

/-- Witness for C4 on the concrete example database. -/
theorem register_duplicate_rejected_witness :
    register exDB "u99" ⟨"New", "User", " Alice", "x"⟩ =
      (Outcome.apiError 400 "Username already exists", exDB) :=
  register_duplicate_rejected exDB "u99" ⟨"New", "User", " Alice", "x"⟩
    ⟨⟨"u1", "Alice", "Smith", "alice", "pw1", "", "Hi"⟩, by decide⟩

/-- C10: the availability check normalizes the username and answers 409 with
available=false exactly when a user with the normalized username exists,
200 with available=true otherwise, while registering the same duplicate
yields a 400 (auth.ts lines 60-87 versus lines 24-32). -/
theorem checkUsername_spec (db : DB) (raw : String) :
    ((checkUsername db raw).status = 409 ∧ (checkUsername db raw).available = false ↔
      ∃ u ∈ db.users, u.username = normalizeUsername raw) ∧
    ((checkUsername db raw).status = 200 ∧ (checkUsername db raw).available = true ↔
      ¬ ∃ u ∈ db.users, u.username = normalizeUsername raw) ∧
    (∀ freshId body, normalizeUsername body.username = normalizeUsername raw →
      (∃ u ∈ db.users, u.username = normalizeUsername raw) →
      register db freshId body = (Outcome.apiError 400 "Username already exists", db)) := by
  refine ⟨?_, ?_, ?_⟩
  · cases hfind : db.users.find? (fun u => u.username == normalizeUsername raw) with
    | none =>
        have hno : ∀ u ∈ db.users, ¬ u.username = normalizeUsername raw := by
          intro u hu
          have := List.find?_eq_none.mp hfind u hu
          simpa using this
        simp only [checkUsername, hfind]
        constructor
        · rintro ⟨h, -⟩; omega
        · rintro ⟨u, hu, hname⟩; exact absurd hname (hno u hu)
    | some u =>
        have hu := List.mem_of_find?_eq_some hfind
        have hname : u.username = normalizeUsername raw := by
          have := List.find?_some hfind
          simpa using this
        simp only [checkUsername, hfind]
        exact ⟨fun _ => ⟨u, hu, hname⟩, fun _ => by simp⟩
  · cases hfind : db.users.find? (fun u => u.username == normalizeUsername raw) with
    | none =>
        have hno : ∀ u ∈ db.users, ¬ u.username = normalizeUsername raw := by
          intro u hu
          have := List.find?_eq_none.mp hfind u hu
          simpa using this
        simp only [checkUsername, hfind]
        exact ⟨fun _ => fun ⟨u, hu, hname⟩ => hno u hu hname, fun _ => by simp⟩
    | some u =>
        have hu := List.mem_of_find?_eq_some hfind
        have hname : u.username = normalizeUsername raw := by
          have := List.find?_some hfind
          simpa using this
        simp only [checkUsername, hfind]
        constructor
        · rintro ⟨h, -⟩; omega
        · intro hno; exact absurd ⟨u, hu, hname⟩ hno
  · rintro freshId body hnorm ⟨u, hu, hname⟩
    have hfind : (db.users.find?
        (fun v => v.username == normalizeUsername body.username)).isSome := by
      exact List.find?_isSome.mpr ⟨u, hu, by simp [hname, hnorm]⟩
    unfold register
    obtain ⟨v, hv⟩ := Option.isSome_iff_exists.mp hfind
    simp [hv]

/-- Witness for C10: the taken name "alice" (queried as " ALICE") yields 409. -/
theorem checkUsername_spec_witness :
    (checkUsername exDB " ALICE").status = 409 ∧
      (checkUsername exDB " ALICE").available = false :=
  (checkUsername_spec exDB " ALICE").1.mpr
    ⟨⟨"u1", "Alice", "Smith", "alice", "pw1", "", "Hi"⟩, by decide⟩

/-- C8: login succeeds with a token exactly when a user with the normalized
username exists whose stored password is string-equal to the supplied one;
otherwise it fails with ApiError 401 "Invalid credentials"; in both cases
the database is unchanged (auth.ts lines 89-119).  The hypothesis is the
schema's UNIQUE constraint on usernames. -/
theorem login_spec (db : DB) (body : LoginRequest)
    (huniq : (db.users.map (fun u => u.username)).Nodup) :
    ((∃ u ∈ db.users, u.username = normalizeUsername body.username ∧
        u.password = body.password) →
      ∃ t, login db body = (Outcome.ok t, db)) ∧
    ((¬ ∃ u ∈ db.users, u.username = normalizeUsername body.username ∧
        u.password = body.password) →
      login db body = (Outcome.apiError 401 "Invalid credentials", db)) := by
  constructor
  · rintro ⟨u, hu, hname, hpwd⟩
    have hfind : (db.users.find?
        (fun v => v.username == normalizeUsername body.username)).isSome :=
      List.find?_isSome.mpr ⟨u, hu, by simp [hname]⟩
    obtain ⟨v, hv⟩ := Option.isSome_iff_exists.mp hfind
    have hvmem := List.mem_of_find?_eq_some hv
    have hvname : v.username = normalizeUsername body.username := by
      have := List.find?_some hv
      simpa using this
    have hvu : v = u :=
      List.inj_on_of_nodup_map huniq hvmem hu (hvname.trans hname.symm)
    have hvpwd : v.password = body.password := by rw [hvu, hpwd]
    exact ⟨generateToken ⟨v.id, v.username⟩, by simp [login, hv, hvpwd]⟩
  · intro hnone
    cases hfind : db.users.find?
        (fun v => v.username == normalizeUsername body.username) with
    | none => simp [login, hfind]
    | some v =>
        have hvmem := List.mem_of_find?_eq_some hfind
        have hvname : v.username = normalizeUsername body.username := by
          have := List.find?_some hfind
          simpa using this
        have hvpwd : ¬ v.password = body.password := fun hp =>
          hnone ⟨v, hvmem, hvname, hp⟩
        simp [login, hfind, hvpwd]

/-- Witness for C8: alice logs in with her password (username sent as
"Alice ", which normalizes to "alice"). -/
theorem login_spec_witness :
    ∃ t, login exDB ⟨"Alice ", "pw1"⟩ = (Outcome.ok t, exDB) :=
  (login_spec exDB ⟨"Alice ", "pw1"⟩ (by decide)).1
    ⟨⟨"u1", "Alice", "Smith", "alice", "pw1", "", "Hi"⟩, by decide⟩

/-- C9: a request whose Authorization header is absent, does not start with
"Bearer ", or carries a token that fails to decode is answered 401 by
authMiddleware; the guarded handler `next` is never consulted (the result is
the same for every `next`) and the database state is returned unchanged
(auth.ts lines 128-145; installed on all recipe and user routes). -/
theorem authMiddleware_rejects {α : Type} (decode : String → Option AuthUser)
    (authHeader : Option String) (next : AuthUser → DB → Outcome α × DB) (db : DB)
    (hbad : authHeader = none ∨
      ∃ h, authHeader = some h ∧
        (leadsWith "Bearer ".data h.data = false ∨
          decode (String.mk ((splitOnChar ' ' h.data).getD 1 [])) = none)) :
    ∃ msg, authMiddleware decode authHeader next db = (Outcome.apiError 401 msg, db) := by
  rcases hbad with hnone | ⟨h, hh, hfail⟩
  · exact ⟨"Unauthorized", by simp [authMiddleware, hnone]⟩
  · subst hh
    rcases hfail with hpre | hdec
    · exact ⟨"Unauthorized", by simp [authMiddleware, hpre]⟩
    · cases hpre : leadsWith "Bearer ".data h.data with
      | false => exact ⟨"Unauthorized", by simp [authMiddleware, hpre]⟩
      | true =>
          have hdec2 : decode (String.mk ((splitOnChar ' ' h.data)[1]?.getD [])) = none := by
            simpa [List.getD] using hdec
          exact ⟨"Invalid token", by simp [authMiddleware, hpre, hdec2]⟩

/-- Witness for C9: a bearer token that fails to decode is rejected with 401
regardless of the guarded handler. -/
theorem authMiddleware_rejects_witness :
    ∃ msg, authMiddleware (fun _ => none) (some "Bearer zzz")
        (fun _ d => (Outcome.ok true, d)) exDB = (Outcome.apiError 401 msg, exDB) :=
  authMiddleware_rejects (fun _ => none) (some "Bearer zzz")
    (fun _ d => (Outcome.ok true, d)) exDB
    (Or.inr ⟨"Bearer zzz", rfl, Or.inr rfl⟩)

/-- Response carrying `{ success: true }`. -/
structure SuccessResponse where
  success : Bool
deriving DecidableEq, Repr

/-- Predicate matching the requesting user's favorite row for recipe `id`
(the WHERE clause `and(eq(userFavorites.recipeId, id), eq(userFavorites.userId, user.id))`
in recipes.ts lines 326-329). -/
def favMatches (user : AuthUser) (id : String) (f : FavRow) : Bool :=
  f.recipeId == id && f.userId == user.id

/-- POST /api/recipes/:id/favorite (recipes.ts lines 313-351): 404 when the
recipe does not exist; otherwise delete the (user, recipe) favorite row if
one is found, insert it if none is. -/
def toggleFavorite (db : DB) (user : AuthUser) (id : String) :
    Outcome SuccessResponse × DB :=
  match db.recipes.find? (fun r => r.id == id) with
  | none => (Outcome.apiError 404 "Recipe not found", db)
  | some _ =>
      match db.userFavorites.find? (favMatches user id) with
      | some _ =>
          let kept := db.userFavorites.filter (fun f => !(favMatches user id f))
          (Outcome.ok ⟨true⟩, { db with userFavorites := kept })
      | none =>
          (Outcome.ok ⟨true⟩,
            { db with userFavorites := db.userFavorites ++ [⟨user.id, id⟩] })

/-- Decoding the favorite-row predicate used by the handler. -/
lemma favMatches_eq_true_iff (user : AuthUser) (id : String) (f : FavRow) :
    favMatches user id f = true ↔ f = ⟨user.id, id⟩ := by
  cases f with
  | mk fu fr =>
      simp only [favMatches, Bool.and_eq_true, beq_iff_eq, FavRow.mk.injEq]
      tauto

/-- C2: toggling the favorite of an existing recipe twice in succession
returns the set of (userId, recipeId) favorite pairs to its initial state
(recipes.ts lines 313-351: existence check, then delete-or-insert). -/
theorem toggleFavorite_involution (db : DB) (user : AuthUser) (id : String)
    (hrec : ∃ r ∈ db.recipes, r.id = id) :
    ((toggleFavorite (toggleFavorite db user id).2 user id).2).userFavorites.toFinset
      = db.userFavorites.toFinset := by
  have hfind : (db.recipes.find? (fun r => r.id == id)).isSome := by
    obtain ⟨r, hr, hid⟩ := hrec
    exact List.find?_isSome.mpr ⟨r, hr, by simp [hid]⟩
  obtain ⟨r0, hr0⟩ := Option.isSome_iff_exists.mp hfind
  cases hfav : db.userFavorites.find? (favMatches user id) with
  | none =>
      have hall : ∀ f ∈ db.userFavorites, favMatches user id f = false := by
        intro f hf
        have := List.find?_eq_none.mp hfav f hf
        simpa using this
      have h1 : (toggleFavorite db user id).2 =
          { db with userFavorites := db.userFavorites ++ [⟨user.id, id⟩] } := by
        simp [toggleFavorite, hr0, hfav]
      have hfind2 : ((db.userFavorites ++ [(⟨user.id, id⟩ : FavRow)]).find?
          (favMatches user id)).isSome := by
        refine List.find?_isSome.mpr ⟨⟨user.id, id⟩, by simp, ?_⟩
        exact (favMatches_eq_true_iff user id ⟨user.id, id⟩).mpr rfl
      obtain ⟨v, hv⟩ := Option.isSome_iff_exists.mp hfind2
      have h2 : ((toggleFavorite (toggleFavorite db user id).2 user id).2).userFavorites =
          (db.userFavorites ++ [(⟨user.id, id⟩ : FavRow)]).filter
            (fun f => !(favMatches user id f)) := by
        rw [h1]
        simp [toggleFavorite, hr0, hv]
      have hkeep : db.userFavorites.filter (fun f => !(favMatches user id f))
          = db.userFavorites :=
        List.filter_eq_self.mpr (fun f hf => by simp [hall f hf])
      have hdrop : [(⟨user.id, id⟩ : FavRow)].filter (fun f => !(favMatches user id f))
          = [] := by
        have := (favMatches_eq_true_iff user id ⟨user.id, id⟩).mpr rfl
        simp [this]
      rw [h2, List.filter_append, hkeep, hdrop, List.append_nil]
  | some v =>
      have hvmem := List.mem_of_find?_eq_some hfav
      have hpv : favMatches user id v = true := by
        simpa using List.find?_some hfav
      have hveq : v = ⟨user.id, id⟩ := (favMatches_eq_true_iff user id v).mp hpv
      have h1 : (toggleFavorite db user id).2 =
          { db with userFavorites :=
              db.userFavorites.filter (fun f => !(favMatches user id f)) } := by
        simp [toggleFavorite, hr0, hfav]
      have hfind2 : ((db.userFavorites.filter (fun f => !(favMatches user id f))).find?
          (favMatches user id)) = none := by
        refine List.find?_eq_none.mpr (fun x hx => ?_)
        have := (List.mem_filter.mp hx).2
        simp only [Bool.not_eq_true'] at this
        simp [this]
      have h2 : ((toggleFavorite (toggleFavorite db user id).2 user id).2).userFavorites =
          db.userFavorites.filter (fun f => !(favMatches user id f)) ++ [⟨user.id, id⟩] := by
        rw [h1]
        simp [toggleFavorite, hr0, hfind2]
      rw [h2]
      apply Finset.ext
      intro a
      simp only [List.mem_toFinset, List.mem_append, List.mem_filter,
        List.mem_singleton]
      constructor
      · rintro (⟨ha, -⟩ | ha)
        · exact ha
        · rw [ha, ← hveq]; exact hvmem
      · intro ha
        by_cases hpa : favMatches user id a = true
        · right; exact (favMatches_eq_true_iff user id a).mp hpa
        · left; exact ⟨ha, by simp [hpa]⟩

/-- Witness for C2: user u1 toggles recipe r1 twice; the favorites are back
to the initial set. -/
theorem toggleFavorite_involution_witness :
    ((toggleFavorite (toggleFavorite exDB ⟨"u1", "alice"⟩ "r1").2
        ⟨"u1", "alice"⟩ "r1").2).userFavorites.toFinset
      = exDB.userFavorites.toFinset :=
  toggleFavorite_involution exDB ⟨"u1", "alice"⟩ "r1"
    ⟨⟨"r1", "u1", "Apple Pie", "", 45, 4⟩, by decide⟩

/-- Ingredient entry of a create/update recipe request (models/types.ts);
the `MeasurementUnit` enumeration is carried as its string value. -/
structure IngredientInput where
  name : String
  amount : ℚ
  unit : String
deriving DecidableEq, Repr

/-- Instruction entry of a create/update recipe request (models/types.ts). -/
structure InstructionInput where
  step : Int
  instruction : String
deriving DecidableEq, Repr

/-- Body of POST / and PUT /:id on the recipe router (models/types.ts,
`CreateRecipeRequest`). -/
structure CreateRecipeRequest where
  name : String
  duration : Int
  servings : Int
  ingredients : List IngredientInput
  instructions : List InstructionInput
deriving DecidableEq, Repr

/-- Response row returned by PUT /api/recipes/:id (recipes.ts lines 413-422). -/
structure UpdatedRecipeResponse where
  id : String
  name : String
  imageUrl : String
  duration : Int
  isFavorite : Bool
deriving DecidableEq, Repr

/-- The ingredient row inserted for payload entry `ing` of recipe `id`
(recipes.ts lines 390-397). -/
def ingRowOf (id : String) (ing : IngredientInput) : IngredientRow :=
  { recipeId := id, name := ing.name, amount := ing.amount, unit := ing.unit }

/-- The instruction row inserted for payload entry `inst` of recipe `id`
(recipes.ts lines 404-411). -/
def instRowOf (id : String) (inst : InstructionInput) : InstructionRow :=
  { recipeId := id, step := inst.step, instruction := inst.instruction }

/-- PUT /api/recipes/:id (recipes.ts lines 354-427): 404 unless a recipe with
this id owned by the requesting user exists; then update the parent row,
delete every ingredient row of the recipe and insert the payload's (the
insert is skipped when the payload list is empty), and likewise for
instructions.  Responds with the updated parent row and isFavorite false. -/
def updateRecipe (db : DB) (user : AuthUser) (id : String)
    (body : CreateRecipeRequest) : Outcome UpdatedRecipeResponse × DB :=
  match db.recipes.find? (fun r => r.id == id && r.userId == user.id) with
  | none =>
      (Outcome.apiError 404 "Recipe not found or you do not have permission to update it", db)
  | some existing =>
      let updatedRecipe : RecipeRow :=
        { existing with name := body.name, duration := body.duration, servings := body.servings }
      let recipes1 := db.recipes.map (fun r =>
        if r.id == id then
          { r with name := body.name, duration := body.duration, servings := body.servings }
        else r)
      let ingredientsKept := db.ingredients.filter (fun i => !(i.recipeId == id))
      let ingredients1 :=
        if 0 < body.ingredients.length then
          ingredientsKept ++ body.ingredients.map (ingRowOf id)
        else ingredientsKept
      let instructionsKept := db.instructions.filter (fun i => !(i.recipeId == id))
      let instructions1 :=
        if 0 < body.instructions.length then
          instructionsKept ++ body.instructions.map (instRowOf id)
        else instructionsKept
      (Outcome.ok ⟨updatedRecipe.id, updatedRecipe.name, updatedRecipe.imageUrl,
          updatedRecipe.duration, false⟩,
        { db with
            recipes := recipes1
            ingredients := ingredients1
            instructions := instructions1 })

/-- Selecting with `p` after keeping only rows failing `p` selects nothing. -/
lemma filter_after_antifilter {α : Type} (p : α → Bool) (l : List α) :
    (l.filter (fun a => !(p a))).filter p = [] := by
  induction l with
  | nil => rfl
  | cons a l ih =>
      by_cases h : p a = true
      · simp [List.filter_cons, h, ih]
      · simp [List.filter_cons, h, ih]

/-- Selecting with `p` keeps a mapped list whose image satisfies `p`. -/
lemma filter_keeps_map {α β : Type} (f : α → β) (p : β → Bool) (l : List α)
    (h : ∀ a, p (f a) = true) : (l.map f).filter p = l.map f := by
  induction l with
  | nil => rfl
  | cons a l ih => simp [List.filter_cons, h a, ih]

/-- C1: when a recipe with the requested id owned by the requesting user
exists, PUT /api/recipes/:id succeeds and afterwards the recipe's ingredient
rows are exactly the payload's ingredients and its instruction rows exactly
the payload's instructions, whatever the previous child rows were
(recipes.ts lines 354-427: delete-all-then-insert). -/
theorem updateRecipe_replaces_children (db : DB) (user : AuthUser) (id : String)
    (body : CreateRecipeRequest)
    (hown : ∃ r ∈ db.recipes, r.id = id ∧ r.userId = user.id) :
    (∃ resp, (updateRecipe db user id body).1 = Outcome.ok resp) ∧
    (updateRecipe db user id body).2.ingredients.filter (fun i => i.recipeId == id)
      = body.ingredients.map (ingRowOf id) ∧
    (updateRecipe db user id body).2.instructions.filter (fun i => i.recipeId == id)
      = body.instructions.map (instRowOf id) := by
  have hfind : (db.recipes.find? (fun r => r.id == id && r.userId == user.id)).isSome := by
    obtain ⟨r, hr, hid, huid⟩ := hown
    exact List.find?_isSome.mpr ⟨r, hr, by simp [hid, huid]⟩
  obtain ⟨existing, hex⟩ := Option.isSome_iff_exists.mp hfind
  refine ⟨⟨⟨existing.id, body.name, existing.imageUrl, body.duration, false⟩,
    by simp [updateRecipe, hex]⟩, ?_, ?_⟩
  · by_cases hlen : 0 < body.ingredients.length
    · have : (updateRecipe db user id body).2.ingredients =
          db.ingredients.filter (fun i => !(i.recipeId == id)) ++
            body.ingredients.map (ingRowOf id) := by
        simp [updateRecipe, hex, hlen]
      rw [this, List.filter_append, filter_after_antifilter,
        filter_keeps_map _ _ _ (fun a => by simp [ingRowOf]), List.nil_append]
    · have hnil : body.ingredients = [] := by simpa using hlen
      have : (updateRecipe db user id body).2.ingredients =
          db.ingredients.filter (fun i => !(i.recipeId == id)) := by
        simp [updateRecipe, hex, hlen]
      rw [this, filter_after_antifilter, hnil, List.map_nil]
  · by_cases hlen : 0 < body.instructions.length
    · have : (updateRecipe db user id body).2.instructions =
          db.instructions.filter (fun i => !(i.recipeId == id)) ++
            body.instructions.map (instRowOf id) := by
        simp [updateRecipe, hex, hlen]
      rw [this, List.filter_append, filter_after_antifilter,
        filter_keeps_map _ _ _ (fun a => by simp [instRowOf]), List.nil_append]
    · have hnil : body.instructions = [] := by simpa using hlen
      have : (updateRecipe db user id body).2.instructions =
          db.instructions.filter (fun i => !(i.recipeId == id)) := by
        simp [updateRecipe, hex, hlen]
      rw [this, filter_after_antifilter, hnil, List.map_nil]

/-- Example update payload for the C1 witness. -/
def exUpdateBody : CreateRecipeRequest :=
  { name := "Apple Crumble"
    duration := 50
    servings := 6
    ingredients := [⟨"apples", 4, "pcs"⟩, ⟨"flour", 200, "g"⟩]
    instructions := [⟨1, "Slice the apples"⟩] }

/-- Witness for C1: u1 updates r1 with a fresh ingredient and instruction
list; afterwards the child rows are exactly the payload's. -/
theorem updateRecipe_replaces_children_witness :
    (∃ resp, (updateRecipe exDB ⟨"u1", "alice"⟩ "r1" exUpdateBody).1 = Outcome.ok resp) ∧
    (updateRecipe exDB ⟨"u1", "alice"⟩ "r1" exUpdateBody).2.ingredients.filter
        (fun i => i.recipeId == "r1")
      = exUpdateBody.ingredients.map (ingRowOf "r1") ∧
    (updateRecipe exDB ⟨"u1", "alice"⟩ "r1" exUpdateBody).2.instructions.filter
        (fun i => i.recipeId == "r1")
      = exUpdateBody.instructions.map (instRowOf "r1") :=
  updateRecipe_replaces_children exDB ⟨"u1", "alice"⟩ "r1" exUpdateBody
    ⟨⟨"r1", "u1", "Apple Pie", "", 45, 4⟩, by decide⟩

/-- DELETE /api/recipes/:id (recipes.ts lines 430-468): 404 unless a recipe
with this id owned by the requesting user exists; then delete the recipe
row, the schema's ON DELETE CASCADE declarations (schema.ts lines 41-71)
removing its ingredient, instruction and favorite rows in the same step.
The best-effort R2 image deletion touches only the blob store, outside the
database state.  Responds { success: true }. -/
def deleteRecipe (db : DB) (user : AuthUser) (id : String) :
    Outcome SuccessResponse × DB :=
  match db.recipes.find? (fun r => r.id == id && r.userId == user.id) with
  | none =>
      (Outcome.apiError 404 "Recipe not found or you do not have permission to delete it", db)
  | some _ =>
      (Outcome.ok ⟨true⟩,
        { db with
            recipes := db.recipes.filter (fun r => !(r.id == id))
            ingredients := db.ingredients.filter (fun i => !(i.recipeId == id))
            instructions := db.instructions.filter (fun i => !(i.recipeId == id))
            userFavorites := db.userFavorites.filter (fun f => !(f.recipeId == id)) })

/-- C3: when a recipe with the requested id owned by the requesting user
exists, DELETE /api/recipes/:id responds { success: true } and afterwards no
ingredient, instruction or favorite row referencing the recipe remains
(recipes.ts lines 430-468 with the schema's cascades). -/
theorem deleteRecipe_cascades (db : DB) (user : AuthUser) (id : String)
    (hown : ∃ r ∈ db.recipes, r.id = id ∧ r.userId = user.id) :
    (deleteRecipe db user id).1 = Outcome.ok ⟨true⟩ ∧
    (∀ i ∈ (deleteRecipe db user id).2.ingredients, i.recipeId ≠ id) ∧
    (∀ i ∈ (deleteRecipe db user id).2.instructions, i.recipeId ≠ id) ∧
    (∀ f ∈ (deleteRecipe db user id).2.userFavorites, f.recipeId ≠ id) := by
  have hfind : (db.recipes.find? (fun r => r.id == id && r.userId == user.id)).isSome := by
    obtain ⟨r, hr, hid, huid⟩ := hown
    exact List.find?_isSome.mpr ⟨r, hr, by simp [hid, huid]⟩
  obtain ⟨victim, hvic⟩ := Option.isSome_iff_exists.mp hfind
  refine ⟨by simp [deleteRecipe, hvic], ?_, ?_, ?_⟩
  · intro i hi
    have hmem : i ∈ db.ingredients.filter (fun i => !(i.recipeId == id)) := by
      simpa [deleteRecipe, hvic] using hi
    have := (List.mem_filter.mp hmem).2
    simpa using this
  · intro i hi
    have hmem : i ∈ db.instructions.filter (fun i => !(i.recipeId == id)) := by
      simpa [deleteRecipe, hvic] using hi
    have := (List.mem_filter.mp hmem).2
    simpa using this
  · intro f hf
    have hmem : f ∈ db.userFavorites.filter (fun f => !(f.recipeId == id)) := by
      simpa [deleteRecipe, hvic] using hf
    have := (List.mem_filter.mp hmem).2
    simpa using this

/-- Witness for C3: u1 deletes r1; no child row of r1 survives. -/
theorem deleteRecipe_cascades_witness :
    (deleteRecipe exDB ⟨"u1", "alice"⟩ "r1").1 = Outcome.ok ⟨true⟩ ∧
    (∀ i ∈ (deleteRecipe exDB ⟨"u1", "alice"⟩ "r1").2.ingredients, i.recipeId ≠ "r1") ∧
    (∀ i ∈ (deleteRecipe exDB ⟨"u1", "alice"⟩ "r1").2.instructions, i.recipeId ≠ "r1") ∧
    (∀ f ∈ (deleteRecipe exDB ⟨"u1", "alice"⟩ "r1").2.userFavorites, f.recipeId ≠ "r1") :=
  deleteRecipe_cascades exDB ⟨"u1", "alice"⟩ "r1"
    ⟨⟨"r1", "u1", "Apple Pie", "", 45, 4⟩, by decide⟩

/-- Error reaching the onError middleware: an ApiError (status code, message
and the optional wrapped cause's message), or any other thrown error, of
which the middleware inspects only the `name` property
(middleware/errorHandler.ts lines 2-11 and 14-50). -/
inductive HandledError where
  | api (statusCode : Nat) (message : String) (originalError : Option String)
  | generic (name : String) (message : String)
deriving DecidableEq, Repr

/-- JSON error response of the middleware: HTTP status, the `error` field,
and the optional `details` field. -/
structure ErrorResponse where
  status : Nat
  error : String
  details : Option String
deriving DecidableEq, Repr

/-- errorHandler (middleware/errorHandler.ts lines 14-50) as a function of
the `process.env.NODE_ENV` value and the thrown error.  For an ApiError the
`details` field carries the wrapped cause's message exactly when NODE_ENV is
"development" and a cause is present (line 21); otherwise the error's `name`
selects among the DrizzleError, ValidationError and default branches. -/
def errorHandler (env : String) (err : HandledError) : ErrorResponse :=
  match err with
  | .api statusCode message originalError =>
      ⟨statusCode, message, if env == "development" then originalError else none⟩
  | .generic name _ =>
      if name == "DrizzleError" then ⟨500, "Database operation failed", none⟩
      else if name == "ValidationError" then ⟨400, "Invalid request data", none⟩
      else ⟨500, "Internal server error", none⟩

/-- C5 counterexample: a non-ApiError whose `name` is "ValidationError" is
answered 400, not 500 (errorHandler.ts lines 38-43), so generic errors do
not always collapse to 500. -/
theorem errorHandler_generic_counterexample :
    (errorHandler "production" (HandledError.generic "ValidationError" "boom")).status = 400 ∧
    (errorHandler "production" (HandledError.generic "ValidationError" "boom")).status ≠ 500 := by
  decide

/-- C5 (amended): every error that is not an ApiError is answered 500 unless
its `name` is "ValidationError", in which case it is answered 400
(errorHandler.ts lines 29-49: DrizzleError and the default both map to 500). -/
theorem errorHandler_generic_status (env name msg : String) :
    (errorHandler env (HandledError.generic name msg)).status =
      if name = "ValidationError" then 400 else 500 := by
  by_cases h1 : name = "DrizzleError"
  · subst h1
    simp [errorHandler]
  · by_cases h2 : name = "ValidationError" <;> simp [errorHandler, h1, h2]

/-- C6 counterexample: in NODE_ENV "test" — an environment other than
production — the wrapped cause is omitted from the response
(errorHandler.ts line 21 checks for "development", not "not production"). -/
theorem errorHandler_details_counterexample :
    (errorHandler "test" (HandledError.api 500 "msg" (some "cause"))).details = none ∧
    "test" ≠ "production" := by
  decide

/-- C6 (amended): the JSON error response for an ApiError with a wrapped
cause includes the cause's message exactly when NODE_ENV is "development",
and omits it in every other environment, production included
(errorHandler.ts lines 17-27). -/
theorem errorHandler_details_dev_only (env message cause : String) (statusCode : Nat) :
    (errorHandler env (HandledError.api statusCode message (some cause))).details =
      if env = "development" then some cause else none := by
  by_cases h : env = "development" <;> simp [errorHandler, h]

/-- All suffixes of a character list, longest first (ending with []). -/
def suffixes : List Char → List (List Char)
  | [] => [[]]
  | c :: cs => (c :: cs) :: suffixes cs

/-- SQLite LIKE pattern matching: `%` matches any character sequence, `_`
any single character, and ordinary characters compare ASCII-case-
insensitively (`Char.toLower` folds exactly the ASCII range).  This is the
engine semantics applied to the drizzle condition
sql`${recipes.name} LIKE ${'%' + search + '%'}` (recipes.ts line 92). -/
def likeMatch : List Char → List Char → Bool
  | [], ts => ts.isEmpty
  | p :: ps, ts =>
      if p = '%' then (suffixes ts).any (fun t2 => likeMatch ps t2)
      else if p = '_' then
        match ts with
        | [] => false
        | _ :: ts2 => likeMatch ps ts2
      else
        match ts with
        | [] => false
        | c :: ts2 => (p.toLower == c.toLower) && likeMatch ps ts2

/-- String-level LIKE, as the database applies it to the recipe name. -/
def sqliteLike (pattern text : String) : Bool :=
  likeMatch pattern.data text.data

/-- Boolean test that `s` occurs in `t` as a contiguous substring. -/
def occursIn (s t : List Char) : Bool :=
  (suffixes t).any (fun t2 => leadsWith s t2)

/-- Row shape returned by GET /api/recipes (models/types.ts,
`RecipeListItem`). -/
structure RecipeListItem where
  id : String
  name : String
  imageUrl : String
  duration : Int
  isFavorite : Bool
deriving DecidableEq, Repr

/-- Rows the base query of GET /api/recipes produces for one recipe
(recipes.ts lines 78-89): the left join with the requesting user's favorite
rows yields the recipe once with isFavorite false when no favorite row
matches, and once per matching favorite row with isFavorite true otherwise
(the unique-pair constraint makes the latter a single row). -/
def recipeJoinRows (db : DB) (user : AuthUser) (r : RecipeRow) : List RecipeListItem :=
  let favs := db.userFavorites.filter (favMatches user r.id)
  if favs.isEmpty then [⟨r.id, r.name, r.imageUrl, r.duration, false⟩]
  else favs.map (fun _ => ⟨r.id, r.name, r.imageUrl, r.duration, true⟩)

/-- The base query of GET /api/recipes (recipes.ts lines 78-89). -/
def recipeListBase (db : DB) (user : AuthUser) : List RecipeListItem :=
  db.recipes.flatMap (recipeJoinRows db user)

/-- GET /api/recipes (recipes.ts lines 72-99): the base query, filtered with
LIKE '%search%' on the recipe name when a search query is supplied; JS
treats the empty string as falsy, so no filter is applied then either. -/
def getRecipes (db : DB) (user : AuthUser) (search : Option String) :
    List RecipeListItem :=
  match search with
  | none => recipeListBase db user
  | some s =>
      if s.data.isEmpty then recipeListBase db user
      else (recipeListBase db user).filter
        (fun item => sqliteLike ("%" ++ s ++ "%") item.name)

/-- Taking suffixes commutes with mapping a character function. -/
lemma suffixes_map (f : Char → Char) (t : List Char) :
    suffixes (t.map f) = (suffixes t).map (List.map f) := by
  induction t with
  | nil => rfl
  | cons c cs ih => simp [suffixes, ih]

/-- Some suffix of any list is empty (the last one). -/
lemma suffixes_any_isEmpty (t : List Char) :
    (suffixes t).any (fun t2 => t2.isEmpty) = true := by
  induction t with
  | nil => rfl
  | cons c cs ih => simp [suffixes] at ih ⊢; exact ih

/-- The empty string occurs in every string. -/
lemma occursIn_nil (t : List Char) : occursIn [] t = true := by
  cases t with
  | nil => rfl
  | cons c cs => simp [occursIn, suffixes, leadsWith]

/-- A wildcard-free LIKE pattern followed by `%` matches exactly the texts
it case-insensitively leads. -/
lemma likeMatch_literal (s : List Char) (hs : ∀ c ∈ s, c ≠ '%' ∧ c ≠ '_') :
    ∀ t, likeMatch (s ++ ['%']) t
      = leadsWith (s.map Char.toLower) (t.map Char.toLower) := by
  induction s with
  | nil =>
      intro t
      have h1 : likeMatch (['%'] : List Char) t
          = (suffixes t).any (fun t2 => likeMatch [] t2) := by
        simp [likeMatch]
      have h2 : (suffixes t).any (fun t2 => likeMatch [] t2)
          = (suffixes t).any (fun t2 => t2.isEmpty) := by
        simp [likeMatch]
      simp only [List.nil_append, h1, h2, suffixes_any_isEmpty, List.map_nil, leadsWith]
  | cons a s ih =>
      intro t
      obtain ⟨ha1, ha2⟩ := hs a (by simp)
      have ihs : ∀ c ∈ s, c ≠ '%' ∧ c ≠ '_' := fun c hc => hs c (by simp [hc])
      cases t with
      | nil => simp [likeMatch, leadsWith, ha1, ha2]
      | cons b t2 =>
          have hrec := ih ihs t2
          simp only [List.cons_append, likeMatch, if_neg ha1, if_neg ha2,
            List.map_cons, leadsWith, List.append_eq, hrec]

/-- A LIKE pattern `'%' ++ s ++ '%'` with wildcard-free `s` matches exactly
the texts containing `s` as an ASCII-case-insensitive substring. -/
lemma likeMatch_contains (s : List Char) (hs : ∀ c ∈ s, c ≠ '%' ∧ c ≠ '_') :
    ∀ t, likeMatch ('%' :: (s ++ ['%'])) t
      = occursIn (s.map Char.toLower) (t.map Char.toLower) := by
  intro t
  have h1 : likeMatch ('%' :: (s ++ ['%'])) t
      = (suffixes t).any (fun t2 => likeMatch (s ++ ['%']) t2) := by
    simp [likeMatch]
  rw [h1, occursIn, suffixes_map, List.any_map]
  simp only [Function.comp_def, likeMatch_literal s hs]

/-- With the schema's unique (userId, recipeId) pair constraint, the rows of
`user_favorites` matching one user and one recipe are none or exactly one. -/
lemma nodup_filter_favPair (l : List FavRow) (hl : l.Nodup) (user : AuthUser)
    (rid : String) :
    l.filter (favMatches user rid) = [] ∨
    l.filter (favMatches user rid) = [⟨user.id, rid⟩] := by
  induction l with
  | nil => exact Or.inl rfl
  | cons a l ih =>
      obtain ⟨hnotmem, hl2⟩ := List.nodup_cons.mp hl
      by_cases hpa : favMatches user rid a = true
      · have ha : a = ⟨user.id, rid⟩ := (favMatches_eq_true_iff user rid a).mp hpa
        have hrest : l.filter (favMatches user rid) = [] := by
          rcases ih hl2 with h | h
          · exact h
          · exfalso
            apply hnotmem
            have hmem : (⟨user.id, rid⟩ : FavRow) ∈ l.filter (favMatches user rid) := by
              rw [h]; simp
            rw [ha]
            exact (List.mem_filter.mp hmem).1
        right
        have hmk : favMatches user rid ⟨user.id, rid⟩ = true :=
          (favMatches_eq_true_iff user rid _).mpr rfl
        simp [List.filter_cons, hrest, ha, hmk]
      · rcases ih hl2 with h | h
        · left; simp [List.filter_cons, hpa, h]
        · right; simp [List.filter_cons, hpa, h]

/-- Under the unique-pair constraint the join contributes exactly one output
row per recipe. -/
lemma recipeJoinRows_map_id (db : DB) (user : AuthUser) (r : RecipeRow)
    (hfav : db.userFavorites.Nodup) :
    (recipeJoinRows db user r).map (fun item => item.id) = [r.id] := by
  unfold recipeJoinRows
  rcases nodup_filter_favPair db.userFavorites hfav user r.id with h | h
  · simp [h]
  · simp [h]

/-- C7 counterexample: searching "apple" returns the recipe named
"Apple Pie", whose name does not contain "apple" as a substring — SQLite
LIKE compares ASCII-case-insensitively, so the list is not exactly the
case-sensitive substring matches the claim describes. -/
theorem getRecipes_search_counterexample :
    (getRecipes exDB ⟨"u1", "alice"⟩ (some "apple")).map (fun item => item.name)
        = ["Apple Pie"] ∧
    occursIn "apple".data "Apple Pie".data = false := by
  decide

/-- C7 (amended): for a search string without the LIKE wildcards `%` and
`_`, GET /api/recipes?search=s returns exactly the recipes whose name
contains s as an ASCII-case-insensitive substring; with no (or an empty)
search query it returns all recipes, one row each (given the schema's
unique favorite-pair constraint). -/
theorem getRecipes_search_spec (db : DB) (user : AuthUser) (s : String)
    (hs : ∀ c ∈ s.data, c ≠ '%' ∧ c ≠ '_')
    (hfav : db.userFavorites.Nodup) :
    getRecipes db user (some s) =
      (getRecipes db user none).filter
        (fun item => occursIn (s.data.map Char.toLower)
          (item.name.data.map Char.toLower)) ∧
    (getRecipes db user none).map (fun item => item.id) =
      db.recipes.map (fun r => r.id) := by
  constructor
  · by_cases hempty : s.data.isEmpty
    · have hnil : s.data = [] := by simpa using hempty
      have hocc : ∀ item : RecipeListItem,
          occursIn (s.data.map Char.toLower) (item.name.data.map Char.toLower) = true := by
        intro item
        rw [hnil, List.map_nil]
        exact occursIn_nil _
      have hfil : (getRecipes db user none).filter
          (fun item => occursIn (s.data.map Char.toLower)
            (item.name.data.map Char.toLower)) = getRecipes db user none :=
        List.filter_eq_self.mpr (fun item _ => hocc item)
      rw [hfil]
      simp [getRecipes, hempty]
    · have hdata : ("%" ++ s ++ "%").data = '%' :: (s.data ++ ['%']) := by
        simp [String.data_append]
      have hpred : ∀ item : RecipeListItem,
          sqliteLike ("%" ++ s ++ "%") item.name
            = occursIn (s.data.map Char.toLower) (item.name.data.map Char.toLower) := by
        intro item
        rw [sqliteLike, hdata]
        exact likeMatch_contains s.data hs item.name.data
      simp only [getRecipes, if_neg hempty]
      exact List.filter_congr (fun item _ => hpred item)
  · show (recipeListBase db user).map (fun item => item.id) = _
    rw [recipeListBase]
    induction db.recipes with
    | nil => rfl
    | cons r rs ih =>
        rw [List.flatMap_cons, List.map_append,
          recipeJoinRows_map_id db user r hfav, ih, List.map_cons,
          List.singleton_append]

/-- Witness for C7 (amended) at the concrete database and search "pie". -/
theorem getRecipes_search_spec_witness :
    getRecipes exDB ⟨"u1", "alice"⟩ (some "pie") =
      (getRecipes exDB ⟨"u1", "alice"⟩ none).filter
        (fun item => occursIn ("pie".data.map Char.toLower)
          (item.name.data.map Char.toLower)) ∧
    (getRecipes exDB ⟨"u1", "alice"⟩ none).map (fun item => item.id) =
      exDB.recipes.map (fun r => r.id) :=
  getRecipes_search_spec exDB ⟨"u1", "alice"⟩ "pie" (by decide) (by decide)
